import Mathlib

/-!
Shallow embedding of `src/python/pathway/debug/__init__.py` (the Pathway
debug module): the synthetic change-stream builder (`StreamGenerator`),
the static-table ingestion path (`table_from_pandas` and
`_validate_dataframe`), and the output canonicalizer / printer
(`_compute_and_print_internal` with `_NoneAwareComparisonWrapper`).

Machine values are modelled as `Int`; keys as `Nat`; pandas dataframes as
association lists of named integer columns plus an index.
-/

namespace PathwayDebug

/-- `api.SnapshotEvent`: the three event constructors used by the stream
builder (`advance_time`, `insert`, `delete`). -/
inductive SnapshotEvent where
  | advanceTime (t : Int)
  | insert (key : Nat) (values : List Int)
  | delete (key : Nat) (values : List Int)
deriving DecidableEq, Repr

/-- A row handed to `_table_from_dict`: `(diff, key, values)`. -/
abbrev Row := Int × Nat × List Int

/-- One batch: a dict from worker id to the list of rows processed by this
worker, modelled as an association list in dict insertion order. -/
abbrev Batch := List (Int × List Row)

/-- The argument of `_table_from_dict`: a dict from timestamp to batch,
modelled as an association list in dict insertion order. -/
abbrev Batches := List (Int × Batch)

/-- The per-worker event lists of one stream: `self.events[(persistent_id, w)]`
for the fresh `persistent_id` of the call, as a total function from worker
id (workers without an entry map to `[]`). -/
abbrev Registry := Int → List SnapshotEvent

/-- `set(worker for batch in batches.values() for worker in batch)`:
the workers appearing anywhere in the batch set, deduplicated. -/
def workersOf (bs : Batches) : List Int :=
  (bs.flatMap (fun tb => tb.2.map Prod.fst)).dedup

/-- Append events to one worker's list, leaving all other workers alone. -/
def appendEvt (reg : Registry) (w : Int) (es : List SnapshotEvent) : Registry :=
  fun w' => if w' = w then reg w' ++ es else reg w'

/-- `StreamGenerator._advance_time_for_all_workers`: append an
`AdvanceTime(timestamp)` event to every worker of the stream. -/
def advanceTimeForAllWorkers (reg : Registry) (ws : List Int) (t : Int) : Registry :=
  ws.foldl (fun r w => appendEvt r w [.advanceTime t]) reg

/-- The body of the innermost loop of `_table_from_dict`: encode one
`(diff, key, values)` row, `insert` for `1`, `delete` for `-1`
(each appended `abs(diff)` = 1 times), and a `ValueError` otherwise. -/
def encodeRow : Row → Except Unit (List SnapshotEvent)
  | (d, k, v) =>
    if d = 1 then .ok [.insert k v]
    else if d = -1 then .ok [.delete k v]
    else .error ()

/-- Process one worker's row list for one timestamp.  The `Bool` is `true`
on success; on an invalid diff the raise leaves the registry as already
mutated (events appended before the offending row are kept). -/
def processRows (w : Int) : Registry → List Row → Registry × Bool
  | reg, [] => (reg, true)
  | reg, r :: rest =>
    match encodeRow r with
    | .ok es => processRows w (appendEvt reg w es) rest
    | .error _ => (reg, false)

/-- Process one batch: `for worker, changes in batch.items()`. -/
def processBatch : Registry → Batch → Registry × Bool
  | reg, [] => (reg, true)
  | reg, (w, rows) :: rest =>
    match processRows w reg rows with
    | (reg', true) => processBatch reg' rest
    | (reg', false) => (reg', false)

/-- `batches[timestamp]`: dict lookup by timestamp (keys are unique). -/
def lookupBatch (bs : Batches) (t : Int) : Batch :=
  ((bs.find? (fun tb => tb.1 = t)).map Prod.snd).getD []

/-- The main loop of `_table_from_dict`: `for timestamp in sorted(batches)`,
first the advance-time barrier for all workers, then the batch content. -/
def processTimestamps (ws : List Int) (bs : Batches) : Registry → List Int → Registry × Bool
  | reg, [] => (reg, true)
  | reg, t :: ts =>
    let reg1 := advanceTimeForAllWorkers reg ws t
    match processBatch reg1 (lookupBatch bs t) with
    | (reg2, true) => processTimestamps ws bs reg2 ts
    | (reg2, false) => (reg2, false)

/-- Python truthiness of an `int`: `0` is falsy, everything else truthy. -/
def intTruthy (t : Int) : Bool := t != 0

/-- `any(timestamp for timestamp in timestamps if p(timestamp))`: the
built-in `any` tests the TRUTHINESS of each yielded timestamp, so a yielded
`0` never makes it `True`. -/
def pyAnyFiltered (l : List Int) (p : Int → Bool) : Bool :=
  l.any (fun t => p t && intTruthy t)

/-- `{2 * timestamp: batches[timestamp] for timestamp in batches}`. -/
def doubleBatches (bs : Batches) : Batches :=
  bs.map (fun tb => (2 * tb.1, tb.2))

def negativeTimestampMsg : String := "negative timestamp cannot be used"
def backfillWarningMsg : String :=
  "rows with timestamp 0 are only backfilled and are not processed by output connectors"
def doublingWarningMsg : String :=
  "timestamps are required to be even; all timestamps will be doubled"
def badDiffMsg : String := "only diffs of 1 and -1 are supported"

/-- Result of a `_table_from_dict` call: the per-worker event lists of the
fresh stream as left behind in `self.events`, the error raised (if any),
and the warnings emitted, in order. -/
structure BuildResult where
  events : Registry
  error : Option String
  warnings : List String

/-- `StreamGenerator._table_from_dict`, with the fresh `persistent_id`
projected away (each call uses a fresh one, so the per-worker lists of
this call are independent of earlier calls). -/
def tableFromDict (bs : Batches) : BuildResult :=
  let ws := workersOf bs
  let reg0 : Registry := fun _ => []
  let timestamps := bs.map Prod.fst
  if pyAnyFiltered timestamps (fun t => t < 0) then
    { events := reg0, error := some negativeTimestampMsg, warnings := [] }
  else
    let warns0 : List String :=
      if pyAnyFiltered timestamps (fun t => t = 0) then [backfillWarningMsg] else []
    let doubled := pyAnyFiltered timestamps (fun t => t % 2 = 1)
    let bs' := if doubled then doubleBatches bs else bs
    let warns1 := if doubled then warns0 ++ [doublingWarningMsg] else warns0
    -- `sorted(batches)`: Python's stable sort of the dict keys; on the
    -- distinct integer keys of a dict any correct sort agrees.
    let ts := List.insertionSort (· ≤ ·) (bs'.map Prod.fst)
    match processTimestamps ws bs' reg0 ts with
    | (reg, true) => { events := reg, error := none, warnings := warns1 }
    | (reg, false) => { events := reg, error := some badDiffMsg, warnings := warns1 }

/-- The timestamps of `bs` after the doubling step of `_table_from_dict`
(identity when no odd timestamp is present). -/
def postDoubling (bs : Batches) : Batches :=
  if pyAnyFiltered (bs.map Prod.fst) (fun t => t % 2 = 1) then doubleBatches bs else bs

/-- Specification-side encoding of a row list (all diffs `±1`). -/
def rowEvents (rows : List Row) : List SnapshotEvent :=
  rows.flatMap (fun r => if r.1 = 1 then [.insert r.2.1 r.2.2] else [.delete r.2.1 r.2.2])

/-- The content events worker `w` receives from one batch. -/
def batchContent (b : Batch) (w : Int) : List SnapshotEvent :=
  ((b.find? (fun e => e.1 = w)).map (fun e => rowEvents e.2)).getD []

/-- A batch is well formed when its worker keys are distinct (a dict) and
every diff is `1` or `-1`. -/
def batchOk (b : Batch) : Prop :=
  (b.map Prod.fst).Nodup ∧ ∀ e ∈ b, ∀ r ∈ e.2, r.1 = 1 ∨ r.1 = -1

instance : DecidablePred batchOk := fun b => by
  unfold batchOk; infer_instance

/-- The per-worker events contributed by the sorted timestamp list `ts`:
for every timestamp, the advance-time barrier (for registered workers)
followed by the worker's content events for that timestamp. -/
def plannedEvents (ws : List Int) (bs : Batches) (ts : List Int) (w : Int) :
    List SnapshotEvent :=
  ts.flatMap (fun t =>
    (if w ∈ ws then [.advanceTime t] else []) ++ batchContent (lookupBatch bs t) w)

/-- The timestamp carried by an event, when it is a barrier. -/
def eventTime : SnapshotEvent → Option Int
  | .advanceTime t => some t
  | .insert _ _ => none
  | .delete _ _ => none

/-- The logical time of each event of a per-worker sequence: a barrier
carries its own timestamp, a content event the timestamp of the latest
barrier before it (`cur` before any barrier). -/
def timesFrom (cur : Int) : List SnapshotEvent → List Int
  | [] => []
  | e :: rest =>
    ((eventTime e).getD cur) :: timesFrom ((eventTime e).getD cur) rest

/-- The sorted iteration order of `_table_from_dict`'s main loop:
the (possibly doubled) timestamps in ascending order. -/
def sortedTimestamps (bs : Batches) : List Int :=
  List.insertionSort (· ≤ ·) ((postDoubling bs).map Prod.fst)

def c1Batches : Batches :=
  [(4, [(0, [(1, 1, [10])])]), (2, [(0, [(-1, 2, [20])]), (1, [])])]

def zeroBatches : Batches := [(0, [(0, [(1, 5, [7])])])]

def badDiffBatches : Batches := [(2, [(0, [(1, 10, [1]), (2, 11, [2])])])]

def c2Batches : Batches := [(1, [(0, [(1, 7, [3])])]), (4, [(0, [])])]

/-- `api.TIME_PSEUDOCOLUMN`.  Modelled from the spec: the `api` module is
not under `src/`; the static ingestion docstrings name the time
pseudo-column `__time__`. -/
def TIME_PSEUDOCOLUMN : String := "__time__"

/-- `api.DIFF_PSEUDOCOLUMN`.  Modelled from the spec: the static ingestion
docstrings name the diff pseudo-column `__diff__`. -/
def DIFF_PSEUDOCOLUMN : String := "__diff__"

/-- `api.PANDAS_PSEUDOCOLUMNS`.  Modelled from the spec: the reserved
metadata columns of the static ingestion path (time and diff). -/
def PANDAS_PSEUDOCOLUMNS : List String := [TIME_PSEUDOCOLUMN, DIFF_PSEUDOCOLUMN]

/-- A pandas dataframe as the ingestion paths use it: an index and named
integer-valued columns (association list in column order). -/
structure PDF where
  index : List Int
  cols : List (String × List Int)
deriving DecidableEq, Repr

/-- `df[name]`, when the column exists. -/
def getCol (df : PDF) (name : String) : Option (List Int) :=
  (df.cols.find? (fun c => c.1 = name)).map Prod.snd

/-- `df[name] = v` for an existing column `name`: an IN-PLACE update of
the caller's dataframe. -/
def setCol (df : PDF) (name : String) (v : List Int) : PDF :=
  { df with cols := df.cols.map (fun c => if c.1 = name then (name, v) else c) }

/-- `df[name]` membership test (`name in df.columns`). -/
def hasCol (df : PDF) (name : String) : Bool :=
  (df.cols.find? (fun c => c.1 = name)).isSome

def negativeTimeMsg : String := "Column __time__ cannot contain negative times."
def badDiffColumnMsg : String := "Column __diff__ can only have 1 and -1 values."

/-- The `__diff__` half of `_validate_dataframe`. -/
def checkDiffColumn (df : PDF) (warns : List String) :
    Except String (PDF × List String) :=
  match getCol df DIFF_PSEUDOCOLUMN with
  | some ds =>
    if ds.any (fun d => d ≠ 1 && d ≠ -1) then .error badDiffColumnMsg
    else .ok (df, warns)
  | none => .ok (df, warns)

/-- `_validate_dataframe`, returning the state of the caller's dataframe
after the call (the source doubles the `__time__` column IN PLACE when an
odd timestamp is present) together with the warnings emitted.  The
integer-dtype check of the source is vacuous here because the model's
columns are integer-valued by construction. -/
def validateDataframe (df : PDF) : Except String (PDF × List String) :=
  match getCol df TIME_PSEUDOCOLUMN with
  | some ts =>
    if ts.any (fun t => t < 0) then .error negativeTimeMsg
    else if ts.any (fun t => t % 2 = 1) then
      checkDiffColumn (setCol df TIME_PSEUDOCOLUMN (ts.map (fun t => 2 * t)))
        [doublingWarningMsg]
    else checkDiffColumn df []
  | none => checkDiffColumn df []

/-- The display column list of `compute_and_print_update_stream`: the data
columns with the time and diff pseudo-columns appended
(`columns.extend([api.TIME_PSEUDOCOLUMN, api.DIFF_PSEUDOCOLUMN])`). -/
def updateStreamColumns (columns : List String) : List String :=
  columns ++ [TIME_PSEUDOCOLUMN, DIFF_PSEUDOCOLUMN]

/-- What `_compute_and_print_internal` prints for a `None` cell: `none`
when nothing at all is printed (no columns and identifiers hidden,
lines 92-93), otherwise the `none` string chosen at lines 95-98
(`""` when identifiers are shown or there is more than one column,
the literal `"None"` otherwise). -/
def noneRendering (includeId : Bool) (columns : List String) : Option String :=
  if columns.isEmpty && !includeId then none
  else if includeId || columns.length > 1 then some "" else some "None"

/-- A captured output value as the printing sort sees it (wrapped in
`_NoneAwareComparisonWrapper`): `None`, an int, a string, or an
array-like value, whose comparisons raise in Python. -/
inductive PyVal where
  | none
  | int (n : Int)
  | str (s : String)
  | arr (l : List Int)
deriving DecidableEq, Repr

/-- The Python exception raised by a failed comparison inside the sort:
`except ValueError` catches exactly the first kind. -/
inductive PyExc where
  | valueError
  | typeError
deriving DecidableEq, Repr

/-- `_NoneAwareComparisonWrapper.__eq__`: `self.inner == other.inner`.
Comparing an array with an array or a number yields an array whose
truth value raises `ValueError`; values of different plain types are
simply unequal. -/
def pyEqVal : PyVal → PyVal → Except PyExc Bool
  | .none, .none => .ok true
  | .int a, .int b => .ok (a = b)
  | .str a, .str b => .ok (a = b)
  | .arr _, .arr _ => .error .valueError
  | .arr _, .int _ => .error .valueError
  | .int _, .arr _ => .error .valueError
  | _, _ => .ok false

/-- `_NoneAwareComparisonWrapper.__lt__`: `None` is minimal (compared
without touching the other value); otherwise `self.inner < other.inner`,
which raises `ValueError` on arrays and `TypeError` on unrelated types. -/
def pyLtVal : PyVal → PyVal → Except PyExc Bool
  | .none, o => .ok (o ≠ .none)
  | _, .none => .ok false
  | .int a, .int b => .ok (a < b)
  | .str a, .str b => .ok (a < b)
  | .arr _, .arr _ => .error .valueError
  | .arr _, .int _ => .error .valueError
  | .int _, .arr _ => .error .valueError
  | _, _ => .error .typeError

/-- Python tuple `<` over the wrapped value tuples produced by `_key`:
scan with `==` for the first differing position, compare it with `<`;
a strict prefix is smaller. -/
def pyLtTuple : List PyVal → List PyVal → Except PyExc Bool
  | [], [] => .ok false
  | [], _ :: _ => .ok true
  | _ :: _, [] => .ok false
  | a :: as, b :: bs => do
    let e ← pyEqVal a b
    if e then pyLtTuple as bs else pyLtVal a b

/-- One captured output row as the squashed printer sorts it:
`(key, values)`; `_key` compares the wrapped value tuples. -/
abbrev CapturedRow := Nat × List PyVal

def rowLt (r₁ r₂ : CapturedRow) : Except PyExc Bool := pyLtTuple r₁.2 r₂.2

/-- Insert into a sorted list, propagating comparison exceptions
(the model of one step of Python's stable sort). -/
def insertSorted (lt : CapturedRow → CapturedRow → Except PyExc Bool)
    (x : CapturedRow) : List CapturedRow → Except PyExc (List CapturedRow)
  | [] => .ok [x]
  | y :: ys => do
    if (← lt x y) then .ok (x :: y :: ys)
    else do
      let zs ← insertSorted lt x ys
      .ok (y :: zs)

/-- `sorted(output_data, key=_key)`: a stable comparison sort that raises
the first comparison exception it encounters. -/
def sortE (lt : CapturedRow → CapturedRow → Except PyExc Bool) :
    List CapturedRow → Except PyExc (List CapturedRow)
  | [] => .ok []
  | x :: xs => do
    let ys ← sortE lt xs
    insertSorted lt x ys

/-- Lines 122-125: `try: output_data = sorted(...) except ValueError:
pass` — a `ValueError` during sorting leaves the arrival order; any other
exception propagates out of the print. -/
def canonicalizeRows (rows : List CapturedRow) : Except PyExc (List CapturedRow) :=
  match sortE rowLt rows with
  | .ok sortedRows => .ok sortedRows
  | .error .valueError => .ok rows
  | .error .typeError => .error .typeError

def c8Rows : List CapturedRow := [(1, [.arr [1]]), (2, [.arr [2]])]

/-- `Int` encoded injectively into `Nat`. -/
def encInt : Int → Nat
  | .ofNat n => 2 * n
  | .negSucc n => 2 * n + 1

/-- A list of naturals encoded injectively into `Nat` by iterated
pairing. -/
def encList : List Nat → Nat
  | [] => 0
  | x :: xs => Nat.pair x (encList xs) + 1

/-- A string encoded by the codepoints of its characters. -/
def encStr (s : String) : Nat := encList (s.toList.map Char.toNat)

/-- Modelled from the spec: `pathway.internals.fingerprints.fingerprint`
is not under `src/`.  Per §4.4/§9 it is a deterministic content hash of a
row's identity-defining fields; it is modelled as an injective encoding
into `Nat`, the ideal-hash reading (equal content, equal fingerprint;
distinct content, distinct fingerprint). -/
def rowFingerprint (r : List (String × Int)) : Nat :=
  encList (r.map (fun p => Nat.pair (encStr p.1) (encInt p.2)))

/-- The records of `ids_df.to_dict(orient="records")` in
`table_from_pandas`: per row, the identity-defining fields — the index as
a column `"id"` when `id_from` is `None`, else the `id_from` columns —
followed by the pseudo-columns present in the dataframe. -/
def idRecords (df : PDF) (idFrom : Option (List String)) :
    List (List (String × Int)) :=
  (List.range df.index.length).map (fun i =>
    (match idFrom with
     | none => [("id", df.index.getD i 0)]
     | some cols =>
        cols.filterMap (fun c => (getCol df c).map (fun col => (c, col.getD i 0))))
    ++ PANDAS_PSEUDOCOLUMNS.filterMap (fun c =>
        (getCol df c).map (fun col => (c, col.getD i 0))))

/-- `key = fingerprint((unsafe_trusted_ids, sorted(as_hashes)))`: with the
fingerprint modelled injectively the cache key is the pair itself. -/
def cacheKey (df : PDF) (idFrom : Option (List String)) (trust : Bool) :
    Bool × List Nat :=
  (trust, List.insertionSort (· ≤ ·) ((idRecords df idFrom).map rowFingerprint))

/-- A table handle: its own id and the id of the row-identity universe it
shares (`with_universe_of`). -/
structure TableHandle where
  tid : Nat
  univ : Nat
deriving DecidableEq, Repr

/-- The graph-building session state used by `table_from_pandas`:
`G.static_tables_cache` plus a counter minting fresh table handles. -/
structure GraphState where
  nextId : Nat
  staticTablesCache : List ((Bool × List Nat) × TableHandle)
deriving DecidableEq, Repr

/-- `table_from_pandas` (module level, the static path): validate the
dataframe (possibly doubling its time column in place), hash the
identity-defining rows into the cache key, and either share the cached
table's universe or insert the fresh handle into the cache.  Schema
checking is orthogonal to the claims and omitted. -/
def table_from_pandas (df : PDF) (idFrom : Option (List String)) (trust : Bool)
    (g : GraphState) : Except String (TableHandle × GraphState × List String) :=
  match validateDataframe df with
  | .error e => .error e
  | .ok (df', warns) =>
    let key := cacheKey df' idFrom trust
    let fresh : TableHandle := { tid := g.nextId, univ := g.nextId }
    match g.staticTablesCache.find? (fun e => e.1 = key) with
    | some e => .ok ({ fresh with univ := e.2.univ },
        { g with nextId := g.nextId + 1 }, warns)
    | none => .ok (fresh,
        { nextId := g.nextId + 1,
          staticTablesCache := g.staticTablesCache ++ [(key, fresh)] }, warns)

/-- `table_from_parquet`: reads the Parquet file into a dataframe (the
`df` argument models `pd.read_parquet(path)`) and hands it to
`table_from_pandas` — with literal `id_from=None, unsafe_trusted_ids=False`
instead of the caller's arguments. -/
def table_from_parquet (df : PDF) (idFrom : Option (List String)) (trust : Bool)
    (g : GraphState) : Except String (TableHandle × GraphState × List String) :=
  table_from_pandas df .none false g

/-- Insert a row at the end of a worker's list inside one batch dict,
creating the worker entry at the end on first sight (Python dict
semantics). -/
def dictInsertWorkerRow (b : Batch) (w : Int) (r : Row) : Batch :=
  if b.any (fun e => e.1 = w) then
    b.map (fun e => if e.1 = w then (e.1, e.2 ++ [r]) else e)
  else b ++ [(w, [r])]

/-- Insert a row into the nested `batches[time][worker]` dict, creating
missing entries at the end (Python dict semantics). -/
def dictInsertRow (bs : Batches) (t w : Int) (r : Row) : Batches :=
  if bs.any (fun tb => tb.1 = t) then
    bs.map (fun tb => if tb.1 = t then (tb.1, dictInsertWorkerRow tb.2 w r) else tb)
  else bs ++ [(t, [(w, [r])])]

/-- The data cells of row `i` (every column except `_time`, `_worker`,
`_diff`), in column order. -/
def dataRow (df : PDF) (i : Nat) : List Int :=
  (df.cols.filter
    (fun c => !((["_time", "_worker", "_diff"] : List String).contains c.1))).map
    (fun c => c.2.getD i 0)

/-- Lines 516-521 of `StreamGenerator.table_from_pandas`: the missing
`_time`/`_worker`/`_diff` columns are assigned INTO the caller's
dataframe (pandas appends a new column at the end). -/
def sgFillDefaults (df : PDF) : PDF :=
  let n := df.index.length
  let df₁ := if hasCol df "_time" then df
    else { df with cols := df.cols ++ [("_time", List.replicate n 2)] }
  let df₂ := if hasCol df₁ "_worker" then df₁
    else { df₁ with cols := df₁.cols ++ [("_worker", List.replicate n 0)] }
  if hasCol df₂ "_diff" then df₂
  else { df₂ with cols := df₂.cols ++ [("_diff", List.replicate n 1)] }

/-- The batch dict built by the row loop of
`StreamGenerator.table_from_pandas`.  Keys are by row position — modelled
from the spec: `api.ids_from_pandas` is not under `src/`, and §4.1 assigns
missing keys from a monotone counter. -/
def sgBuildBatches (df : PDF) : Batches :=
  (List.range df.index.length).foldl (fun bs i =>
    let time := ((getCol df "_time").getD []).getD i 0
    let worker := ((getCol df "_worker").getD []).getD i 0
    let diff := ((getCol df "_diff").getD []).getD i 0
    dictInsertRow bs time worker (diff, i, dataRow df i)) []

/-- `StreamGenerator.table_from_pandas`: fill the missing pseudo-columns
in place, build the batch dict, hand it to `_table_from_dict`.  The first
component is the state of the CALLER's dataframe after the call. -/
def sgTableFromPandas (df : PDF) : PDF × BuildResult :=
  let df' := sgFillDefaults df
  (df', tableFromDict (sgBuildBatches df'))

def c6dfA : PDF := ⟨[1, 2], [("a", [10, 20])]⟩

/-- `c6dfA` with its rows swapped (a row carries its index along). -/
def c6dfB : PDF := ⟨[2, 1], [("a", [20, 10])]⟩

/-- `c6dfA` with one identity-defining value (an index entry) changed. -/
def c6dfC : PDF := ⟨[1, 3], [("a", [10, 20])]⟩

def c10df : PDF := ⟨[5, 6], [("a", [1, 2])]⟩

def c10dfTime : PDF := ⟨[0], [("__time__", [1])]⟩

theorem appendEvt_apply (reg : Registry) (w : Int) (es : List SnapshotEvent) (w' : Int) :
    appendEvt reg w es w' = if w' = w then reg w' ++ es else reg w' := rfl

theorem processRows_eq_of_ok (w : Int) (rows : List Row) :
    ∀ reg : Registry, (∀ r ∈ rows, r.1 = 1 ∨ r.1 = -1) →
      processRows w reg rows =
        ((fun w' => if w' = w then reg w' ++ rowEvents rows else reg w'), true) := by
  induction rows with
  | nil =>
    intro reg _
    simp only [processRows, rowEvents, List.flatMap_nil]
    refine Prod.ext ?_ rfl
    funext w'
    by_cases hw : w' = w <;> simp [hw]
  | cons r rest ih =>
    intro reg h
    obtain ⟨d, k, v⟩ := r
    have hd := h _ (List.mem_cons_self _ _)
    have hrest : ∀ r ∈ rest, r.1 = 1 ∨ r.1 = -1 := fun r hr => h r (List.mem_cons_of_mem _ hr)
    rcases hd with hd | hd
    · simp only at hd
      subst hd
      have he : encodeRow (1, k, v) = .ok [.insert k v] := rfl
      simp only [processRows, he]
      rw [ih _ hrest]
      simp only [Prod.mk.injEq, and_true]
      funext w'
      by_cases hw : w' = w <;>
        simp [hw, appendEvt, rowEvents]
    · simp only at hd
      subst hd
      have he : encodeRow (-1, k, v) = .ok [.delete k v] := rfl
      simp only [processRows, he]
      rw [ih _ hrest]
      simp only [Prod.mk.injEq, and_true]
      funext w'
      by_cases hw : w' = w <;>
        simp [hw, appendEvt, rowEvents]

theorem batchContent_nil (w : Int) : batchContent [] w = [] := rfl

theorem batchContent_cons (w₀ : Int) (rows : List Row) (rest : Batch) (w : Int) :
    batchContent ((w₀, rows) :: rest) w =
      if w₀ = w then rowEvents rows else batchContent rest w := by
  by_cases hw : w₀ = w <;> simp [batchContent, List.find?_cons, hw]

theorem batchContent_eq_nil_of_not_mem (b : Batch) (w : Int)
    (h : w ∉ b.map Prod.fst) : batchContent b w = [] := by
  induction b with
  | nil => rfl
  | cons e rest ih =>
    obtain ⟨w₀, rows⟩ := e
    simp only [List.map_cons, List.mem_cons] at h
    push_neg at h
    rw [batchContent_cons]
    rw [if_neg (fun hc => h.1 hc.symm)]
    exact ih h.2

theorem processBatch_eq_of_ok (b : Batch) :
    ∀ reg : Registry, batchOk b →
      processBatch reg b = ((fun w' => reg w' ++ batchContent b w'), true) := by
  induction b with
  | nil =>
    intro reg _
    simp only [processBatch]
    refine Prod.ext ?_ rfl
    funext w'
    simp [batchContent_nil]
  | cons e rest ih =>
    intro reg hok
    obtain ⟨w, rows⟩ := e
    obtain ⟨hnd, hdiff⟩ := hok
    simp only [List.map_cons, List.nodup_cons] at hnd
    have hrows : ∀ r ∈ rows, r.1 = 1 ∨ r.1 = -1 := hdiff _ (List.mem_cons_self _ _)
    have hrest : batchOk rest :=
      ⟨hnd.2, fun e he => hdiff e (List.mem_cons_of_mem _ he)⟩
    simp only [processBatch]
    rw [processRows_eq_of_ok w rows reg hrows]
    simp only
    rw [ih _ hrest]
    simp only [Prod.mk.injEq, and_true]
    funext w'
    by_cases hw : w' = w
    · subst hw
      simp [batchContent_cons, batchContent_eq_nil_of_not_mem rest w' hnd.1]
    · simp only [batchContent_cons]
      rw [if_neg (fun hc : w = w' => hw hc.symm)]
      simp [hw]

theorem advanceTimeForAllWorkers_eq (t : Int) (ws : List Int) :
    ∀ reg : Registry, ws.Nodup →
      advanceTimeForAllWorkers reg ws t =
        fun w => if w ∈ ws then reg w ++ [.advanceTime t] else reg w := by
  induction ws with
  | nil =>
    intro reg _
    funext w
    simp [advanceTimeForAllWorkers]
  | cons w₀ rest ih =>
    intro reg hnd
    simp only [List.nodup_cons] at hnd
    simp only [advanceTimeForAllWorkers, List.foldl_cons]
    rw [show (List.foldl (fun r w => appendEvt r w [.advanceTime t])
        (appendEvt reg w₀ [.advanceTime t]) rest) =
        advanceTimeForAllWorkers (appendEvt reg w₀ [.advanceTime t]) rest t from rfl]
    rw [ih _ hnd.2]
    funext w
    by_cases hw : w ∈ rest
    · have hne : w ≠ w₀ := fun hc => hnd.1 (hc ▸ hw)
      simp [hw, hne, appendEvt, List.mem_cons]
    · by_cases hw0 : w = w₀
      · subst hw0
        simp [hw, appendEvt, hnd.1]
      · simp [hw, hw0, appendEvt, List.mem_cons]

theorem processTimestamps_eq_of_ok (ws : List Int) (bs : Batches) (ts : List Int)
    (hws : ws.Nodup) (hok : ∀ t ∈ ts, batchOk (lookupBatch bs t)) :
    ∀ reg : Registry,
      processTimestamps ws bs reg ts =
        ((fun w => reg w ++ plannedEvents ws bs ts w), true) := by
  induction ts with
  | nil =>
    intro reg
    simp only [processTimestamps]
    refine Prod.ext ?_ rfl
    funext w
    simp [plannedEvents]
  | cons t ts ih =>
    intro reg
    have hokt : batchOk (lookupBatch bs t) := hok t (List.mem_cons_self _ _)
    have hokr : ∀ t' ∈ ts, batchOk (lookupBatch bs t') :=
      fun t' ht' => hok t' (List.mem_cons_of_mem _ ht')
    simp only [processTimestamps]
    rw [advanceTimeForAllWorkers_eq t ws _ hws,
      processBatch_eq_of_ok _ _ hokt]
    simp only
    rw [ih hokr]
    refine Prod.ext ?_ rfl
    funext w
    by_cases hw : w ∈ ws <;>
      simp [plannedEvents, hw, List.flatMap_cons]

theorem rowEvents_eventTime_eq_none (rows : List Row) :
    ∀ e ∈ rowEvents rows, eventTime e = none := by
  intro e he
  simp only [rowEvents, List.mem_flatMap] at he
  obtain ⟨r, _, hr⟩ := he
  by_cases h1 : r.1 = 1
  · rw [if_pos h1] at hr
    simp only [List.mem_singleton] at hr
    subst hr; rfl
  · rw [if_neg h1] at hr
    simp only [List.mem_singleton] at hr
    subst hr; rfl

theorem batchContent_eventTime_eq_none (b : Batch) (w : Int) :
    ∀ e ∈ batchContent b w, eventTime e = none := by
  intro e he
  unfold batchContent at he
  cases hf : b.find? (fun e => e.1 = w) with
  | none => rw [hf] at he; simp at he
  | some entry =>
    rw [hf] at he
    simp at he
    exact rowEvents_eventTime_eq_none _ e he

theorem timesFrom_append_content (cur : Int) (l rest : List SnapshotEvent)
    (h : ∀ e ∈ l, eventTime e = none) :
    timesFrom cur (l ++ rest) = l.map (fun _ => cur) ++ timesFrom cur rest := by
  induction l with
  | nil => simp
  | cons e l ih =>
    have he : eventTime e = none := h e (List.mem_cons_self _ _)
    simp only [List.cons_append, timesFrom, he, Option.getD_none, List.map_cons,
      List.cons.injEq, true_and]
    exact ih (fun e' he' => h e' (List.mem_cons_of_mem _ he'))

theorem timesFrom_advance (cur t : Int) (l : List SnapshotEvent) :
    timesFrom cur (.advanceTime t :: l) = t :: timesFrom t l := rfl

theorem chain'_cons_map_const (t : Int) (xs : List SnapshotEvent) (B : List Int)
    (hB : List.Chain' (· ≤ ·) B) (hhead : ∀ y ∈ B.head?, t ≤ y) :
    List.Chain' (· ≤ ·) (t :: (xs.map (fun _ => t) ++ B)) := by
  induction xs with
  | nil => exact List.chain'_cons'.2 ⟨hhead, hB⟩
  | cons x xs ih =>
    refine List.chain'_cons'.2 ⟨?_, ih⟩
    intro y hy
    simp only [List.map_cons, List.cons_append, List.head?_cons, Option.mem_def,
      Option.some.injEq] at hy
    omega

theorem chain'_timesFrom_blocks (f : Int → List SnapshotEvent)
    (hf : ∀ t, ∀ e ∈ f t, eventTime e = none) :
    ∀ ts : List Int, List.Pairwise (· ≤ ·) ts → ∀ c : Int,
      List.Chain' (· ≤ ·)
        (timesFrom c (ts.flatMap (fun t => .advanceTime t :: f t))) := by
  intro ts
  induction ts with
  | nil => intro _ c; simp [timesFrom]
  | cons t ts ih =>
    intro hp c
    rw [List.pairwise_cons] at hp
    rw [List.flatMap_cons, List.cons_append, timesFrom_advance,
      timesFrom_append_content t (f t) _ (hf t)]
    refine chain'_cons_map_const t (f t) _ (ih hp.2 t) ?_
    intro y hy
    cases ts with
    | nil => simp [timesFrom] at hy
    | cons t' ts' =>
      rw [List.flatMap_cons, List.cons_append, timesFrom_advance] at hy
      simp only [List.head?_cons, Option.mem_def, Option.some.injEq] at hy
      exact hy ▸ hp.1 t' (List.mem_cons_self _ _)

theorem pyAnyFiltered_neg_eq_false (l : List Int) (h : ∀ t ∈ l, 0 ≤ t) :
    pyAnyFiltered l (fun t => t < 0) = false := by
  unfold pyAnyFiltered intTruthy
  simp only [List.any_eq_false, Bool.and_eq_true, decide_eq_true_eq, bne_iff_ne,
    not_and]
  intro t ht hlt
  exact absurd hlt (not_lt.2 (h t ht))

theorem pyAnyFiltered_zero_eq_false (l : List Int) :
    pyAnyFiltered l (fun t => t = 0) = false := by
  unfold pyAnyFiltered intTruthy
  simp only [List.any_eq_false, Bool.and_eq_true, decide_eq_true_eq, bne_iff_ne,
    not_and]
  intro t _ h0
  simp [h0]

theorem lookupBatch_batchOk (bs : Batches) (t : Int)
    (h : ∀ tb ∈ bs, batchOk tb.2) : batchOk (lookupBatch bs t) := by
  unfold lookupBatch
  cases hf : bs.find? (fun tb => tb.1 = t) with
  | none => exact ⟨List.nodup_nil, by simp⟩
  | some tb => exact h tb (List.mem_of_find?_eq_some hf)

theorem postDoubling_batchOk (bs : Batches)
    (h : ∀ tb ∈ bs, batchOk tb.2) : ∀ tb ∈ postDoubling bs, batchOk tb.2 := by
  unfold postDoubling
  by_cases hd : pyAnyFiltered (bs.map Prod.fst) (fun t => t % 2 = 1) = true
  · simp only [hd, if_true, doubleBatches]
    intro tb htb
    simp only [List.mem_map] at htb
    obtain ⟨tb₀, htb₀, rfl⟩ := htb
    exact h tb₀ htb₀
  · simp only [Bool.not_eq_true] at hd
    simp only [hd, Bool.false_eq_true, if_false]
    exact h

theorem sortedTimestamps_pairwise (bs : Batches) :
    List.Pairwise (· ≤ ·) (sortedTimestamps bs) :=
  List.sorted_insertionSort (· ≤ ·) ((postDoubling bs).map Prod.fst)

theorem sortedTimestamps_perm (bs : Batches) :
    (sortedTimestamps bs).Perm ((postDoubling bs).map Prod.fst) :=
  List.perm_insertionSort (· ≤ ·) ((postDoubling bs).map Prod.fst)

/-- On a fully valid batch set (dict keys, non-negative timestamps, diffs
all `±1`), `_table_from_dict` raises no error and leaves, for every worker,
exactly the planned per-worker sequence. -/
theorem tableFromDict_of_ok (bs : Batches)
    (hbatch : ∀ tb ∈ bs, batchOk tb.2)
    (hneg : ∀ t ∈ bs.map Prod.fst, 0 ≤ t) :
    (tableFromDict bs).error = none ∧
    (tableFromDict bs).events =
      fun w => plannedEvents (workersOf bs) (postDoubling bs) (sortedTimestamps bs) w := by
  have hok : ∀ t ∈ sortedTimestamps bs, batchOk (lookupBatch (postDoubling bs) t) :=
    fun t _ => lookupBatch_batchOk _ t (postDoubling_batchOk bs hbatch)
  have hproc := processTimestamps_eq_of_ok (workersOf bs) (postDoubling bs)
    (sortedTimestamps bs) (List.nodup_dedup _) hok (fun _ => [])
  simp only [tableFromDict, pyAnyFiltered_neg_eq_false _ hneg, Bool.false_eq_true,
    if_false]
  unfold sortedTimestamps postDoubling at hproc
  rw [hproc]
  exact ⟨rfl, by funext w; rfl⟩

theorem processRows_snd_true_imp (w : Int) (rows : List Row) :
    ∀ reg : Registry, (processRows w reg rows).2 = true →
      ∀ r ∈ rows, r.1 = 1 ∨ r.1 = -1 := by
  induction rows with
  | nil => intro reg _ r hr; cases hr
  | cons r rest ih =>
    intro reg h r' hr'
    obtain ⟨d, k, v⟩ := r
    rcases List.mem_cons.1 hr' with hr' | hr'
    · subst hr'
      by_cases h1 : d = 1
      · exact Or.inl h1
      · by_cases h2 : d = -1
        · exact Or.inr h2
        · exfalso
          have he : encodeRow (d, k, v) = .error () := by
            simp only [encodeRow]
            rw [if_neg h1, if_neg h2]
          simp only [processRows, he] at h
          cases h
    · by_cases h1 : d = 1
      · have he : encodeRow (d, k, v) = .ok [.insert k v] := by
          simp only [encodeRow]; rw [if_pos h1]
        simp only [processRows, he] at h
        exact ih _ h r' hr'
      · by_cases h2 : d = -1
        · have he : encodeRow (d, k, v) = .ok [.delete k v] := by
            simp only [encodeRow]; rw [if_neg h1, if_pos h2]
          simp only [processRows, he] at h
          exact ih _ h r' hr'
        · exfalso
          have he : encodeRow (d, k, v) = .error () := by
            simp only [encodeRow]; rw [if_neg h1, if_neg h2]
          simp only [processRows, he] at h
          cases h

theorem processBatch_snd_true_imp (b : Batch) :
    ∀ reg : Registry, (processBatch reg b).2 = true →
      ∀ e ∈ b, ∀ r ∈ e.2, r.1 = 1 ∨ r.1 = -1 := by
  induction b with
  | nil => intro reg _ e he; cases he
  | cons e₀ rest ih =>
    intro reg h e he
    obtain ⟨w, rows⟩ := e₀
    simp only [processBatch] at h
    rcases hpr : processRows w reg rows with ⟨reg', ok⟩
    rw [hpr] at h
    cases ok with
    | false => simp at h
    | true =>
      simp only at h
      rcases List.mem_cons.1 he with he | he
      · subst he
        intro r hr
        exact processRows_snd_true_imp w rows reg (by rw [hpr]) r hr
      · exact ih _ h e he

theorem processTimestamps_snd_true_imp (ws : List Int) (bs : Batches) (ts : List Int) :
    ∀ reg : Registry, (processTimestamps ws bs reg ts).2 = true →
      ∀ t ∈ ts, ∀ e ∈ lookupBatch bs t, ∀ r ∈ e.2, r.1 = 1 ∨ r.1 = -1 := by
  induction ts with
  | nil => intro reg _ t ht; cases ht
  | cons t₀ ts ih =>
    intro reg h t ht
    simp only [processTimestamps] at h
    rcases hpb : processBatch (advanceTimeForAllWorkers reg ws t₀) (lookupBatch bs t₀)
      with ⟨reg', ok⟩
    rw [hpb] at h
    cases ok with
    | false => simp at h
    | true =>
      simp only at h
      rcases List.mem_cons.1 ht with ht | ht
      · subst ht
        exact processBatch_snd_true_imp _ _ (by rw [hpb])
      · exact ih _ h t ht

theorem lookupBatch_eq_of_mem (bs : Batches) (t : Int) (b : Batch)
    (hnd : (bs.map Prod.fst).Nodup) (hmem : (t, b) ∈ bs) :
    lookupBatch bs t = b := by
  induction bs with
  | nil => cases hmem
  | cons tb rest ih =>
    obtain ⟨t₀, b₀⟩ := tb
    simp only [List.map_cons, List.nodup_cons] at hnd
    rcases List.mem_cons.1 hmem with hmem | hmem
    · rw [Prod.mk.injEq] at hmem
      obtain ⟨rfl, rfl⟩ := hmem
      unfold lookupBatch
      rw [List.find?_cons_of_pos _ (by simp)]
      rfl
    · have hne : t₀ ≠ t := by
        intro hc
        subst hc
        exact hnd.1 (List.mem_map.2 ⟨(t₀, b), hmem, rfl⟩)
      unfold lookupBatch
      rw [List.find?_cons_of_neg _ (by simpa using hne)]
      exact ih hnd.2 hmem

theorem postDoubling_keys_nodup (bs : Batches)
    (h : (bs.map Prod.fst).Nodup) : ((postDoubling bs).map Prod.fst).Nodup := by
  unfold postDoubling
  by_cases hd : pyAnyFiltered (bs.map Prod.fst) (fun t => t % 2 = 1) = true
  · simp only [hd, if_true, doubleBatches, List.map_map]
    have : (Prod.fst ∘ fun tb : Int × Batch => (2 * tb.1, tb.2)) =
        (fun t => 2 * t) ∘ Prod.fst := rfl
    rw [this, ← List.map_map]
    exact List.Nodup.map (fun a b hab => by omega) h
  · simp only [Bool.not_eq_true] at hd
    simp only [hd, Bool.false_eq_true, if_false]
    exact h

theorem mem_postDoubling (bs : Batches) (t : Int) (b : Batch) (hmem : (t, b) ∈ bs) :
    (if pyAnyFiltered (bs.map Prod.fst) (fun t => t % 2 = 1) then 2 * t else t, b) ∈
      postDoubling bs := by
  unfold postDoubling
  by_cases hd : pyAnyFiltered (bs.map Prod.fst) (fun t => t % 2 = 1) = true
  · simp only [hd, if_true, doubleBatches]
    exact List.mem_map.2 ⟨(t, b), hmem, rfl⟩
  · simp only [Bool.not_eq_true] at hd
    simp only [hd, Bool.false_eq_true, if_false]
    exact hmem

theorem tableFromDict_events_blocks (bs : Batches)
    (hbatch : ∀ tb ∈ bs, batchOk tb.2)
    (hneg : ∀ t ∈ bs.map Prod.fst, 0 ≤ t) :
    (tableFromDict bs).error = none ∧
    ∀ w ∈ workersOf bs,
      (tableFromDict bs).events w =
        (sortedTimestamps bs).flatMap
          (fun t => .advanceTime t :: batchContent (lookupBatch (postDoubling bs) t) w) := by
  obtain ⟨herr, hev⟩ := tableFromDict_of_ok bs hbatch hneg
  refine ⟨herr, fun w hw => ?_⟩
  rw [hev]
  simp only [plannedEvents]
  congr 1
  funext t
  rw [if_pos hw]
  rfl

/-- C1: for every batch mapping handed to the stream builder (well formed:
dict keys, non-negative timestamps, diffs `±1`), every per-worker event
sequence is exactly, timestamp by ascending timestamp, the
`AdvanceTime` barrier for that timestamp followed by the worker's
`Insert`/`Delete` events for it in row order — and is therefore
time-nondecreasing, with content events carrying the time of the barrier
just before them. -/
theorem stream_builder_barrier_then_content (bs : Batches)
    (hbatch : ∀ tb ∈ bs, batchOk tb.2)
    (hneg : ∀ t ∈ bs.map Prod.fst, 0 ≤ t) :
    (tableFromDict bs).error = none ∧
    ∀ w ∈ workersOf bs,
      (tableFromDict bs).events w =
        (sortedTimestamps bs).flatMap
          (fun t => .advanceTime t :: batchContent (lookupBatch (postDoubling bs) t) w) ∧
      List.Chain' (· ≤ ·) (timesFrom 0 ((tableFromDict bs).events w)) := by
  obtain ⟨herr, hev⟩ := tableFromDict_events_blocks bs hbatch hneg
  refine ⟨herr, fun w hw => ?_⟩
  refine ⟨hev w hw, ?_⟩
  rw [hev w hw]
  exact chain'_timesFrom_blocks _ (fun t => batchContent_eventTime_eq_none _ _)
    (sortedTimestamps bs) (sortedTimestamps_pairwise bs) 0

/-- Witness for C1 at the concrete batch set
`{4: {0: [(+1, 1, [10])]}, 2: {0: [(-1, 2, [20])], 1: []}}`. -/
theorem stream_builder_barrier_then_content_witness :
    (tableFromDict c1Batches).error = none ∧
    ∀ w ∈ workersOf c1Batches,
      (tableFromDict c1Batches).events w =
        (sortedTimestamps c1Batches).flatMap
          (fun t =>
            .advanceTime t :: batchContent (lookupBatch (postDoubling c1Batches) t) w) ∧
      List.Chain' (· ≤ ·) (timesFrom 0 ((tableFromDict c1Batches).events w)) :=
  stream_builder_barrier_then_content c1Batches (by decide) (by decide)

/-- C5: a batch set containing a negative timestamp makes
`_table_from_dict` raise `ValueError("negative timestamp cannot be used")`
before any event is appended: every per-worker list in the registry is
still empty. -/
theorem negative_timestamp_aborts_before_events (bs : Batches)
    (h : ∃ t ∈ bs.map Prod.fst, t < 0) :
    (tableFromDict bs).error = some negativeTimestampMsg ∧
    ∀ w, (tableFromDict bs).events w = [] := by
  have hany : pyAnyFiltered (bs.map Prod.fst) (fun t => t < 0) = true := by
    obtain ⟨t, ht, hlt⟩ := h
    unfold pyAnyFiltered intTruthy
    rw [List.any_eq_true]
    exact ⟨t, ht, by simp only [Bool.and_eq_true, decide_eq_true_eq, bne_iff_ne]
                     exact ⟨hlt, by omega⟩⟩
  simp [tableFromDict, hany]

/-- Witness for C5 at the concrete batch set `{-2: {0: [(+1, 1, [1])]}}`. -/
theorem negative_timestamp_aborts_before_events_witness :
    (tableFromDict [((-2 : Int), [(0, [(1, 1, [1])])])]).error =
      some negativeTimestampMsg ∧
    ∀ w, (tableFromDict [((-2 : Int), [(0, [(1, 1, [1])])])]).events w = [] :=
  negative_timestamp_aborts_before_events _ ⟨-2, by decide, by decide⟩

/-- C4 (code bug): on the batch set `{0: {0: [(+1, 5, [7])]}}` construction
succeeds but NO warning is emitted: the guard
`any(timestamp for timestamp in timestamps if timestamp == 0)` tests the
truthiness of the yielded timestamps, and a yielded `0` is falsy, so the
backfill branch is unreachable. -/
theorem zero_timestamp_emits_no_warning :
    (tableFromDict zeroBatches).error = none ∧
    (tableFromDict zeroBatches).warnings = [] ∧
    (tableFromDict zeroBatches).events 0 =
      [.advanceTime 0, .insert 5 [7]] := by
  refine ⟨rfl, rfl, ?_⟩
  decide

/-- C3 counterexample: on `{2: {0: [(+1, 10, [1]), (+2, 11, [2])]}}` the
builder raises the diff error, yet the registry is NOT empty for the
failed stream: the advance-time barrier and the first row's insert were
already appended when the error was raised. -/
theorem bad_diff_leaves_partial_registry :
    (tableFromDict badDiffBatches).error = some badDiffMsg ∧
    (tableFromDict badDiffBatches).events 0 =
      [.advanceTime 2, .insert 10 [1]] := by
  constructor
  · decide
  · decide

/-- C3 amended: a diff outside `{+1, -1}` in a well-keyed, non-negative
batch set always raises the hard error — but the registry keeps whatever
was appended before the offending row (it is not all-or-nothing). -/
theorem bad_diff_raises_hard_error (bs : Batches)
    (hkeys : (bs.map Prod.fst).Nodup)
    (hneg : ∀ t ∈ bs.map Prod.fst, 0 ≤ t)
    (hbad : ∃ tb ∈ bs, ∃ e ∈ tb.2, ∃ r ∈ e.2, r.1 ≠ 1 ∧ r.1 ≠ -1) :
    (tableFromDict bs).error = some badDiffMsg := by
  obtain ⟨⟨t, b⟩, htb, e, he, r, hr, hr1, hr2⟩ := hbad
  simp only [tableFromDict, pyAnyFiltered_neg_eq_false _ hneg, Bool.false_eq_true,
    if_false]
  rw [show (if pyAnyFiltered (bs.map Prod.fst) (fun t => t % 2 = 1) then doubleBatches bs
      else bs) = postDoubling bs from rfl]
  rcases hpt : processTimestamps (workersOf bs) (postDoubling bs) (fun _ => [])
      (List.insertionSort (· ≤ ·) ((postDoubling bs).map Prod.fst)) with ⟨reg, ok⟩
  cases ok with
  | true =>
    exfalso
    set t' := if pyAnyFiltered (bs.map Prod.fst) (fun t => t % 2 = 1) then 2 * t else t
      with ht'
    have hmem' : (t', b) ∈ postDoubling bs := by
      rw [ht']
      exact mem_postDoubling bs t b htb
    have hkey : t' ∈ List.insertionSort (· ≤ ·) ((postDoubling bs).map Prod.fst) :=
      ((List.perm_insertionSort _ _).mem_iff).2 (List.mem_map.2 ⟨(t', b), hmem', rfl⟩)
    have hlk : lookupBatch (postDoubling bs) t' = b :=
      lookupBatch_eq_of_mem _ _ _ (postDoubling_keys_nodup bs hkeys) hmem'
    have := processTimestamps_snd_true_imp (workersOf bs) (postDoubling bs)
      (List.insertionSort (· ≤ ·) ((postDoubling bs).map Prod.fst))
      (fun _ => []) (by rw [hpt]) t' hkey
    rw [hlk] at this
    rcases this e he r hr with h1 | h1
    · exact hr1 h1
    · exact hr2 h1
  | false =>
    rfl

/-- Witness for the amended C3 at `{2: {0: [(+5, 3, [])]}}`. -/
theorem bad_diff_raises_hard_error_witness :
    (tableFromDict [(2, [(0, [(5, 3, ([] : List Int))])])]).error = some badDiffMsg :=
  bad_diff_raises_hard_error _ (by decide) (by decide)
    ⟨(2, [(0, [(5, 3, [])])]), by decide, (0, [(5, 3, [])]), by decide,
      (5, 3, []), by decide, by decide, by decide⟩

theorem filterMap_eventTime_blocks (f : Int → List SnapshotEvent)
    (hf : ∀ t, ∀ e ∈ f t, eventTime e = none) (ts : List Int) :
    (ts.flatMap (fun t => .advanceTime t :: f t)).filterMap eventTime = ts := by
  induction ts with
  | nil => rfl
  | cons t ts ih =>
    have h1 : (f t).filterMap eventTime = [] :=
      List.filterMap_eq_nil_iff.2 (hf t)
    rw [List.flatMap_cons, List.cons_append, List.filterMap_cons]
    simp only [eventTime]
    rw [List.filterMap_append, h1, List.nil_append, ih]

theorem doubleBatches_keys (bs : Batches) :
    (doubleBatches bs).map Prod.fst = (bs.map Prod.fst).map (fun t => 2 * t) := by
  simp only [doubleBatches, List.map_map]
  rfl

theorem pyAnyFiltered_odd_eq_true (l : List Int) (h : ∃ t ∈ l, t % 2 = 1) :
    pyAnyFiltered l (fun t => t % 2 = 1) = true := by
  obtain ⟨t, ht, hodd⟩ := h
  unfold pyAnyFiltered intTruthy
  rw [List.any_eq_true]
  refine ⟨t, ht, ?_⟩
  simp only [Bool.and_eq_true, decide_eq_true_eq, bne_iff_ne]
  exact ⟨hodd, by omega⟩

theorem find?_map_overwrite (cs : List (String × List Int)) (n₁ n₂ : String)
    (v : List Int) (h : n₁ ≠ n₂) :
    (cs.map (fun c => if c.1 = n₁ then (n₁, v) else c)).find? (fun c => c.1 = n₂) =
      cs.find? (fun c => c.1 = n₂) := by
  induction cs with
  | nil => rfl
  | cons c rest ih =>
    by_cases hc1 : c.1 = n₁
    · have hg : (if c.1 = n₁ then (n₁, v) else c) = (n₁, v) := if_pos hc1
      rw [List.map_cons, hg]
      rw [List.find?_cons_of_neg _ (by simpa using h),
        List.find?_cons_of_neg _ (by simp [hc1, h]), ih]
    · have hg : (if c.1 = n₁ then (n₁, v) else c) = c := if_neg hc1
      rw [List.map_cons, hg]
      by_cases hc2 : c.1 = n₂
      · rw [List.find?_cons_of_pos _ (by simpa using hc2),
          List.find?_cons_of_pos _ (by simpa using hc2)]
      · rw [List.find?_cons_of_neg _ (by simpa using hc2),
          List.find?_cons_of_neg _ (by simpa using hc2), ih]

theorem getCol_setCol_of_ne (df : PDF) (n₁ n₂ : String) (v : List Int)
    (h : n₁ ≠ n₂) : getCol (setCol df n₁ v) n₂ = getCol df n₂ := by
  unfold getCol setCol
  simp only
  rw [find?_map_overwrite df.cols n₁ n₂ v h]

theorem validateDataframe_doubles_on_odd (df : PDF) (ts0 : List Int)
    (hts : getCol df TIME_PSEUDOCOLUMN = some ts0)
    (hnn : ∀ t ∈ ts0, 0 ≤ t)
    (hodd : ∃ t ∈ ts0, t % 2 = 1)
    (hdiff : ∀ ds, getCol df DIFF_PSEUDOCOLUMN = some ds → ∀ d ∈ ds, d = 1 ∨ d = -1) :
    validateDataframe df =
      .ok (setCol df TIME_PSEUDOCOLUMN (ts0.map (fun t => 2 * t)),
        [doublingWarningMsg]) := by
  have h1 : ts0.any (fun t => t < 0) = false := by
    rw [List.any_eq_false]
    intro t ht
    simp [not_lt, hnn t ht]
  have h2 : ts0.any (fun t => t % 2 = 1) = true := by
    obtain ⟨t, ht, hto⟩ := hodd
    rw [List.any_eq_true]
    exact ⟨t, ht, by simpa using hto⟩
  unfold validateDataframe
  rw [hts]
  simp only [h1, Bool.false_eq_true, if_false, h2, if_true]
  unfold checkDiffColumn
  rw [getCol_setCol_of_ne df TIME_PSEUDOCOLUMN DIFF_PSEUDOCOLUMN _ (by decide)]
  cases hdc : getCol df DIFF_PSEUDOCOLUMN with
  | none => rfl
  | some ds =>
    have h3 : ds.any (fun d => d ≠ 1 && d ≠ -1) = false := by
      rw [List.any_eq_false]
      intro d hd
      rcases hdiff ds hdc d hd with h | h <;> simp [h]
    simp only [h3, Bool.false_eq_true, if_false]

/-- C2: a batch set with at least one odd timestamp gets exactly the
doubling warning, and every timestamp of the whole batch set is doubled:
each worker's barrier times are the doubled original timestamps in
ascending order; in particular every original timestamp `t` (odd or even)
appears as an `AdvanceTime (2 * t)` barrier.  Likewise, a dataframe whose
`__time__` column holds an odd value is doubled entrywise with the same
warning. -/
theorem odd_timestamps_warned_and_all_doubled (bs : Batches)
    (hbatch : ∀ tb ∈ bs, batchOk tb.2)
    (hneg : ∀ t ∈ bs.map Prod.fst, 0 ≤ t)
    (hodd : ∃ t ∈ bs.map Prod.fst, t % 2 = 1) :
    (tableFromDict bs).warnings = [doublingWarningMsg] ∧
    (∀ w ∈ workersOf bs,
      ((tableFromDict bs).events w).filterMap eventTime =
        List.insertionSort (· ≤ ·) ((bs.map Prod.fst).map (fun t => 2 * t)) ∧
      ∀ t ∈ bs.map Prod.fst,
        .advanceTime (2 * t) ∈ (tableFromDict bs).events w) ∧
    (∀ (df : PDF) (ts0 : List Int),
      getCol df TIME_PSEUDOCOLUMN = some ts0 →
      (∀ t ∈ ts0, 0 ≤ t) →
      (∃ t ∈ ts0, t % 2 = 1) →
      (∀ ds, getCol df DIFF_PSEUDOCOLUMN = some ds → ∀ d ∈ ds, d = 1 ∨ d = -1) →
      validateDataframe df =
        .ok (setCol df TIME_PSEUDOCOLUMN (ts0.map (fun t => 2 * t)),
          [doublingWarningMsg])) := by
  have hany : pyAnyFiltered (bs.map Prod.fst) (fun t => t % 2 = 1) = true :=
    pyAnyFiltered_odd_eq_true _ hodd
  have hst : sortedTimestamps bs =
      List.insertionSort (· ≤ ·) ((bs.map Prod.fst).map (fun t => 2 * t)) := by
    unfold sortedTimestamps postDoubling
    rw [hany]
    simp only [eq_self_iff_true, if_true, doubleBatches_keys]
  obtain ⟨herr, hev⟩ := tableFromDict_events_blocks bs hbatch hneg
  refine ⟨?_, ?_, ?_⟩
  · simp only [tableFromDict, pyAnyFiltered_neg_eq_false _ hneg, Bool.false_eq_true,
      if_false, pyAnyFiltered_zero_eq_false, hany, eq_self_iff_true, if_true,
      List.nil_append]
    rcases hpt : processTimestamps (workersOf bs) (doubleBatches bs) (fun _ => [])
        (List.insertionSort (· ≤ ·) ((doubleBatches bs).map Prod.fst))
      with ⟨reg, ok⟩
    cases ok <;> rfl
  · intro w hw
    constructor
    · rw [hev w hw,
        filterMap_eventTime_blocks _ (fun t => batchContent_eventTime_eq_none _ _),
        hst]
    · intro t ht
      rw [hev w hw]
      refine List.mem_flatMap.2 ⟨2 * t, ?_, List.mem_cons_self _ _⟩
      rw [hst]
      exact ((List.perm_insertionSort _ _).mem_iff).2 (List.mem_map.2 ⟨t, ht, rfl⟩)
  · intro df ts0 hts hnn hodd' hdiff
    exact validateDataframe_doubles_on_odd df ts0 hts hnn hodd' hdiff

/-- Witness for C2 at the concrete batch set
`{1: {0: [(+1, 7, [3])]}, 4: {0: []}}`. -/
theorem odd_timestamps_warned_and_all_doubled_witness :
    (tableFromDict c2Batches).warnings = [doublingWarningMsg] ∧
    (∀ w ∈ workersOf c2Batches,
      ((tableFromDict c2Batches).events w).filterMap eventTime =
        List.insertionSort (· ≤ ·) ((c2Batches.map Prod.fst).map (fun t => 2 * t)) ∧
      ∀ t ∈ c2Batches.map Prod.fst,
        .advanceTime (2 * t) ∈ (tableFromDict c2Batches).events w) ∧
    (∀ (df : PDF) (ts0 : List Int),
      getCol df TIME_PSEUDOCOLUMN = some ts0 →
      (∀ t ∈ ts0, 0 ≤ t) →
      (∃ t ∈ ts0, t % 2 = 1) →
      (∀ ds, getCol df DIFF_PSEUDOCOLUMN = some ds → ∀ d ∈ ds, d = 1 ∨ d = -1) →
      validateDataframe df =
        .ok (setCol df TIME_PSEUDOCOLUMN (ts0.map (fun t => 2 * t)),
          [doublingWarningMsg])) :=
  odd_timestamps_warned_and_all_doubled c2Batches (by decide) (by decide)
    ⟨1, by decide, by decide⟩

/-- C7: a `None` cell prints as the literal string `"None"` exactly when
the table has a single data column and identifiers are hidden; in every
other printed configuration — identifiers shown, or more than one
column, which includes update-stream mode with its two appended
pseudo-columns — it prints as the empty string. -/
theorem none_prints_literal_iff_single_bare_column :
    (∀ (includeId : Bool) (columns : List String),
      noneRendering includeId columns = some "None" ↔
        includeId = false ∧ columns.length = 1) ∧
    (∀ (includeId : Bool) (columns : List String),
      noneRendering includeId (updateStreamColumns columns) = some "") := by
  constructor
  · intro includeId columns
    cases includeId
    · cases columns with
      | nil => simp [noneRendering]
      | cons c cs =>
        cases cs with
        | nil => simp [noneRendering]
        | cons c2 cs2 => simp [noneRendering]
    · simp [noneRendering]
  · intro includeId columns
    have h2 : 1 < (updateStreamColumns columns).length := by
      simp only [updateStreamColumns, List.length_append, List.length_cons,
        List.length_nil]
      omega
    cases includeId <;> simp [noneRendering, updateStreamColumns, h2]

/-- C8: whenever the canonicalization sort raises `ValueError` (a value
type supporting no ordering at all, e.g. array-like values), the sort is
abandoned and the rows are produced in their unsorted arrival order,
instead of the whole print failing. -/
theorem unorderable_sort_falls_back_to_arrival_order
    (rows : List CapturedRow) (h : sortE rowLt rows = .error .valueError) :
    canonicalizeRows rows = .ok rows := by
  unfold canonicalizeRows
  rw [h]

/-- Witness for C8: two single-cell rows holding arrays. -/
theorem unorderable_sort_falls_back_to_arrival_order_witness :
    sortE rowLt c8Rows = .error .valueError ∧
    canonicalizeRows c8Rows = .ok c8Rows :=
  ⟨rfl, unorderable_sort_falls_back_to_arrival_order c8Rows rfl⟩

/-- C9: `table_from_parquet` ignores its `id_from` and
`unsafe_trusted_ids` arguments: any two calls on the same dataframe and
session state agree, and both equal `table_from_pandas` invoked with
`id_from=None` and `unsafe_trusted_ids=False`. -/
theorem parquet_ignores_identity_arguments :
    ∀ (df : PDF) (g : GraphState) (id₁ id₂ : Option (List String)) (t₁ t₂ : Bool),
      table_from_parquet df id₁ t₁ g = table_from_parquet df id₂ t₂ g ∧
      table_from_parquet df id₁ t₁ g = table_from_pandas df none false g :=
  fun _ _ _ _ _ _ => ⟨rfl, rfl⟩

theorem encInt_injective : Function.Injective encInt := by
  intro a b h
  cases a with
  | ofNat m =>
    cases b with
    | ofNat n => exact congrArg Int.ofNat (by simp only [encInt] at h; omega)
    | negSucc n => simp only [encInt] at h; omega
  | negSucc m =>
    cases b with
    | ofNat n => simp only [encInt] at h; omega
    | negSucc n => exact congrArg Int.negSucc (by simp only [encInt] at h; omega)

theorem encList_injective : ∀ a b : List Nat, encList a = encList b → a = b := by
  intro a
  induction a with
  | nil =>
    intro b h
    cases b with
    | nil => rfl
    | cons y ys => simp [encList] at h
  | cons x xs ih =>
    intro b h
    cases b with
    | nil => simp [encList] at h
    | cons y ys =>
      simp only [encList, Nat.add_right_cancel_iff, Nat.pair_eq_pair] at h
      obtain ⟨rfl, h2⟩ := h
      rw [ih ys h2]

theorem char_toNat_injective : Function.Injective Char.toNat :=
  StrictMono.injective (fun _ _ h => h)

theorem encStr_injective : ∀ s t : String, encStr s = encStr t → s = t := by
  intro s t h
  unfold encStr at h
  have h1 := encList_injective _ _ h
  have h2 : s.toList = t.toList := List.map_injective_iff.2 char_toNat_injective h1
  cases s
  cases t
  simp only [String.toList] at h2
  exact congrArg String.mk h2

theorem rowFingerprint_injective :
    ∀ r₁ r₂ : List (String × Int), rowFingerprint r₁ = rowFingerprint r₂ → r₁ = r₂ := by
  intro r₁ r₂ h
  unfold rowFingerprint at h
  have h1 := encList_injective _ _ h
  refine List.map_injective_iff.2 ?_ h1
  intro p q hpq
  rw [Nat.pair_eq_pair] at hpq
  obtain ⟨h2, h3⟩ := hpq
  exact Prod.ext (encStr_injective _ _ h2) (encInt_injective h3)

theorem insertionSort_nat_eq_of_perm (l₁ l₂ : List Nat) (h : l₁.Perm l₂) :
    List.insertionSort (· ≤ ·) l₁ = List.insertionSort (· ≤ ·) l₂ := by
  apply List.eq_of_perm_of_sorted (r := (· ≤ ·))
  · exact (List.perm_insertionSort _ l₁).trans
      (h.trans (List.perm_insertionSort _ l₂).symm)
  · exact List.sorted_insertionSort _ l₁
  · exact List.sorted_insertionSort _ l₂

theorem perm_of_insertionSort_nat_eq (l₁ l₂ : List Nat)
    (h : List.insertionSort (· ≤ ·) l₁ = List.insertionSort (· ≤ ·) l₂) :
    l₁.Perm l₂ := by
  have p₁ := List.perm_insertionSort (· ≤ ·) l₁
  have p₂ := List.perm_insertionSort (· ≤ ·) l₂
  exact p₁.symm.trans (h ▸ p₂)

theorem cacheKey_eq_of_perm (df₁ df₂ : PDF) (idFrom : Option (List String))
    (trust : Bool) (h : (idRecords df₁ idFrom).Perm (idRecords df₂ idFrom)) :
    cacheKey df₁ idFrom trust = cacheKey df₂ idFrom trust := by
  unfold cacheKey
  rw [Prod.mk.injEq]
  exact ⟨rfl, insertionSort_nat_eq_of_perm _ _ (h.map rowFingerprint)⟩

theorem cacheKey_ne (df₁ df₂ : PDF) (idFrom : Option (List String)) (t₁ t₂ : Bool)
    (h : t₁ ≠ t₂ ∨ ¬ (idRecords df₁ idFrom).Perm (idRecords df₂ idFrom)) :
    cacheKey df₁ idFrom t₁ ≠ cacheKey df₂ idFrom t₂ := by
  intro hc
  unfold cacheKey at hc
  rw [Prod.mk.injEq] at hc
  obtain ⟨hct, hcs⟩ := hc
  rcases h with h | h
  · exact h hct
  · apply h
    have hperm : ((idRecords df₁ idFrom).map rowFingerprint).Perm
        ((idRecords df₂ idFrom).map rowFingerprint) :=
      perm_of_insertionSort_nat_eq _ _ hcs
    have hmul : ((idRecords df₁ idFrom : Multiset (List (String × Int)))) =
        (idRecords df₂ idFrom : Multiset (List (String × Int))) := by
      apply Multiset.map_injective (f := rowFingerprint)
        (fun a b hab => rowFingerprint_injective a b hab)
      rw [Multiset.map_coe, Multiset.map_coe, Multiset.coe_eq_coe]
      exact hperm
    exact Multiset.coe_eq_coe.1 hmul

theorem table_from_pandas_of_found (df : PDF) (idFrom : Option (List String))
    (trust : Bool) (g : GraphState) (df' : PDF) (w : List String)
    (e : (Bool × List Nat) × TableHandle)
    (hv : validateDataframe df = .ok (df', w))
    (hf : g.staticTablesCache.find? (fun x => x.1 = cacheKey df' idFrom trust) =
      some e) :
    table_from_pandas df idFrom trust g =
      .ok (⟨g.nextId, e.2.univ⟩, ⟨g.nextId + 1, g.staticTablesCache⟩, w) := by
  unfold table_from_pandas
  rw [hv]
  simp only
  rw [hf]

theorem table_from_pandas_of_not_found (df : PDF) (idFrom : Option (List String))
    (trust : Bool) (g : GraphState) (df' : PDF) (w : List String)
    (hv : validateDataframe df = .ok (df', w))
    (hf : g.staticTablesCache.find? (fun x => x.1 = cacheKey df' idFrom trust) =
      none) :
    table_from_pandas df idFrom trust g =
      .ok (⟨g.nextId, g.nextId⟩,
        ⟨g.nextId + 1,
          g.staticTablesCache ++ [(cacheKey df' idFrom trust, ⟨g.nextId, g.nextId⟩)]⟩,
        w) := by
  unfold table_from_pandas
  rw [hv]
  simp only
  rw [hf]

/-- C6: building static tables through `table_from_pandas`, content
identical up to row order with the same trust flag gives a cache hit —
the second handle shares the row-identity universe of the first, whatever
the session cache held before; while changing the trust flag or the
multiset of identity-defining records (starting from an empty session
cache) misses, minting a fresh universe distinct from the first one. -/
theorem static_table_cache_universe_sharing :
    (∀ (df₁ df₂ : PDF) (idFrom : Option (List String)) (trust : Bool)
        (g₀ : GraphState) (df₁' df₂' : PDF) (w₁ w₂ : List String),
      validateDataframe df₁ = .ok (df₁', w₁) →
      validateDataframe df₂ = .ok (df₂', w₂) →
      (idRecords df₁' idFrom).Perm (idRecords df₂' idFrom) →
      ∃ t₁ t₂ : TableHandle, ∃ g₁ g₂ : GraphState,
        table_from_pandas df₁ idFrom trust g₀ = .ok (t₁, g₁, w₁) ∧
        table_from_pandas df₂ idFrom trust g₁ = .ok (t₂, g₂, w₂) ∧
        t₂.univ = t₁.univ) ∧
    (∀ (df₁ df₂ : PDF) (idFrom : Option (List String)) (b₁ b₂ : Bool)
        (g₀ : GraphState) (df₁' df₂' : PDF) (w₁ w₂ : List String),
      g₀.staticTablesCache = [] →
      validateDataframe df₁ = .ok (df₁', w₁) →
      validateDataframe df₂ = .ok (df₂', w₂) →
      (b₁ ≠ b₂ ∨ ¬ (idRecords df₁' idFrom).Perm (idRecords df₂' idFrom)) →
      ∃ t₁ t₂ : TableHandle, ∃ g₁ g₂ : GraphState,
        table_from_pandas df₁ idFrom b₁ g₀ = .ok (t₁, g₁, w₁) ∧
        table_from_pandas df₂ idFrom b₂ g₁ = .ok (t₂, g₂, w₂) ∧
        t₂.univ = t₂.tid ∧ t₂.univ ≠ t₁.univ) := by
  constructor
  · intro df₁ df₂ idFrom trust g₀ df₁' df₂' w₁ w₂ hv₁ hv₂ hperm
    have hkey : cacheKey df₂' idFrom trust = cacheKey df₁' idFrom trust :=
      (cacheKey_eq_of_perm df₁' df₂' idFrom trust hperm).symm
    rcases hf : g₀.staticTablesCache.find?
        (fun x => x.1 = cacheKey df₁' idFrom trust) with _ | e
    · -- miss on the first build, hit on the second
      refine ⟨⟨g₀.nextId, g₀.nextId⟩, ⟨g₀.nextId + 1, g₀.nextId⟩,
        ⟨g₀.nextId + 1, g₀.staticTablesCache ++
          [(cacheKey df₁' idFrom trust, ⟨g₀.nextId, g₀.nextId⟩)]⟩,
        ⟨g₀.nextId + 1 + 1, g₀.staticTablesCache ++
          [(cacheKey df₁' idFrom trust, ⟨g₀.nextId, g₀.nextId⟩)]⟩,
        table_from_pandas_of_not_found df₁ idFrom trust g₀ df₁' w₁ hv₁ hf,
        ?_, rfl⟩
      exact table_from_pandas_of_found df₂ idFrom trust _ df₂' w₂
        (cacheKey df₁' idFrom trust, ⟨g₀.nextId, g₀.nextId⟩) hv₂
        (by
          show (g₀.staticTablesCache ++
            [(cacheKey df₁' idFrom trust,
              (⟨g₀.nextId, g₀.nextId⟩ : TableHandle))]).find? _ = _
          rw [hkey, List.find?_append, hf]
          rw [List.find?_cons_of_pos _ (by simp)]
          rfl)
    · -- hit on both builds
      refine ⟨⟨g₀.nextId, e.2.univ⟩, ⟨g₀.nextId + 1, e.2.univ⟩,
        ⟨g₀.nextId + 1, g₀.staticTablesCache⟩,
        ⟨g₀.nextId + 1 + 1, g₀.staticTablesCache⟩,
        table_from_pandas_of_found df₁ idFrom trust g₀ df₁' w₁ e hv₁ hf,
        ?_, rfl⟩
      exact table_from_pandas_of_found df₂ idFrom trust _ df₂' w₂ e hv₂
        (by
          show g₀.staticTablesCache.find? _ = _
          rw [hkey]
          exact hf)
  · intro df₁ df₂ idFrom b₁ b₂ g₀ df₁' df₂' w₁ w₂ hE hv₁ hv₂ hbad
    have hne : cacheKey df₁' idFrom b₁ ≠ cacheKey df₂' idFrom b₂ :=
      cacheKey_ne df₁' df₂' idFrom b₁ b₂ hbad
    have hf₁ : g₀.staticTablesCache.find?
        (fun x => x.1 = cacheKey df₁' idFrom b₁) = none := by
      rw [hE]; rfl
    refine ⟨⟨g₀.nextId, g₀.nextId⟩, ⟨g₀.nextId + 1, g₀.nextId + 1⟩,
      ⟨g₀.nextId + 1, g₀.staticTablesCache ++
        [(cacheKey df₁' idFrom b₁, ⟨g₀.nextId, g₀.nextId⟩)]⟩,
      ⟨g₀.nextId + 1 + 1,
        (g₀.staticTablesCache ++
          [(cacheKey df₁' idFrom b₁, ⟨g₀.nextId, g₀.nextId⟩)]) ++
        [(cacheKey df₂' idFrom b₂, ⟨g₀.nextId + 1, g₀.nextId + 1⟩)]⟩,
      table_from_pandas_of_not_found df₁ idFrom b₁ g₀ df₁' w₁ hv₁ hf₁,
      ?_, rfl, by show g₀.nextId + 1 ≠ g₀.nextId; omega⟩
    exact table_from_pandas_of_not_found df₂ idFrom b₂ _ df₂' w₂ hv₂
      (by
        show (g₀.staticTablesCache ++
          [(cacheKey df₁' idFrom b₁,
            (⟨g₀.nextId, g₀.nextId⟩ : TableHandle))]).find? _ = _
        rw [hE, List.nil_append]
        rw [List.find?_cons_of_neg _ (by simpa using hne)]
        rfl)

/-- Witness for C6: `c6dfA` versus its row-swapped copy `c6dfB` (cache
hit, shared universe) and versus `c6dfC` with one changed identity value
(cache miss, fresh universe), from an empty session cache. -/
theorem static_table_cache_universe_sharing_witness :
    (∃ t₁ t₂ : TableHandle, ∃ g₁ g₂ : GraphState,
      table_from_pandas c6dfA none true ⟨0, []⟩ = .ok (t₁, g₁, []) ∧
      table_from_pandas c6dfB none true g₁ = .ok (t₂, g₂, []) ∧
      t₂.univ = t₁.univ) ∧
    (∃ t₁ t₂ : TableHandle, ∃ g₁ g₂ : GraphState,
      table_from_pandas c6dfA none true ⟨0, []⟩ = .ok (t₁, g₁, []) ∧
      table_from_pandas c6dfC none true g₁ = .ok (t₂, g₂, []) ∧
      t₂.univ = t₂.tid ∧ t₂.univ ≠ t₁.univ) :=
  ⟨static_table_cache_universe_sharing.1 c6dfA c6dfB none true ⟨0, []⟩
      c6dfA c6dfB [] [] rfl rfl (by decide),
    static_table_cache_universe_sharing.2 c6dfA c6dfC none true true ⟨0, []⟩
      c6dfA c6dfC [] [] rfl rfl rfl (Or.inr (by decide))⟩

theorem hasCol_eq_isSome_getCol (df : PDF) (name : String) :
    hasCol df name = (getCol df name).isSome := by
  unfold hasCol getCol
  cases df.cols.find? (fun c => c.1 = name) <;> rfl

theorem find?_none_of_hasCol_false (df : PDF) (name : String)
    (h : hasCol df name = false) :
    df.cols.find? (fun c => c.1 = name) = none := by
  unfold hasCol at h
  cases hf : df.cols.find? (fun c => c.1 = name) with
  | some e => rw [hf] at h; simp at h
  | none => rfl

theorem getCol_none_of_hasCol_false (df : PDF) (name : String)
    (h : hasCol df name = false) : getCol df name = none := by
  unfold getCol
  rw [find?_none_of_hasCol_false df name h]
  rfl

theorem getCol_append_ne (df : PDF) (n' : String) (v : List Int) (name : String)
    (hne : n' ≠ name) :
    getCol { df with cols := df.cols ++ [(n', v)] } name = getCol df name := by
  show ((df.cols ++ [(n', v)]).find? (fun c => c.1 = name)).map Prod.snd =
    getCol df name
  rw [List.find?_append]
  cases hf : df.cols.find? (fun c => c.1 = name) with
  | some e =>
    unfold getCol
    rw [hf]
    rfl
  | none =>
    unfold getCol
    rw [hf, List.find?_cons_of_neg _ (by simpa using hne)]
    rfl

theorem find?_overwrite_self (cs : List (String × List Int)) (n : String)
    (v : List Int) (h : (cs.find? (fun c => c.1 = n)).isSome = true) :
    (cs.map (fun c => if c.1 = n then (n, v) else c)).find? (fun c => c.1 = n) =
      some (n, v) := by
  induction cs with
  | nil => simp at h
  | cons c rest ih =>
    by_cases hc : c.1 = n
    · rw [List.map_cons, if_pos hc, List.find?_cons_of_pos _ (by simp)]
    · rw [List.map_cons, if_neg hc, List.find?_cons_of_neg _ (by simpa using hc)]
      apply ih
      rw [List.find?_cons_of_neg _ (by simpa using hc)] at h
      exact h

theorem getCol_setCol_self (df : PDF) (n : String) (v c : List Int)
    (h : getCol df n = some c) :
    getCol (setCol df n v) n = some v := by
  show ((df.cols.map (fun x => if x.1 = n then (n, v) else x)).find?
    (fun x => x.1 = n)).map Prod.snd = some v
  rw [find?_overwrite_self]
  · rfl
  · unfold getCol at h
    cases hf : df.cols.find? (fun x => x.1 = n) with
    | none => rw [hf] at h; simp at h
    | some e => rfl

theorem map_double_ne_of_odd (l : List Int) (h : ∃ t ∈ l, t % 2 = 1) :
    l.map (fun t => 2 * t) ≠ l := by
  intro hc
  have haux : ∀ l' : List Int, l'.map (fun t => 2 * t) = l' →
      ∀ t ∈ l', 2 * t = t := by
    intro l'
    induction l' with
    | nil => intro _ t ht; cases ht
    | cons x xs ih =>
      intro hmap t ht
      rw [List.map_cons] at hmap
      injection hmap with h1 h2
      rcases List.mem_cons.1 ht with rfl | ht
      · exact h1
      · exact ih h2 t ht
  obtain ⟨t, ht, hodd⟩ := h
  have := haux l hc t ht
  omega

theorem validateDataframe_ok_odd_doubles (df df' : PDF) (ts0 : List Int)
    (w : List String)
    (hts : getCol df TIME_PSEUDOCOLUMN = some ts0)
    (hodd : ∃ t ∈ ts0, t % 2 = 1)
    (hv : validateDataframe df = .ok (df', w)) :
    getCol df' TIME_PSEUDOCOLUMN = some (ts0.map (fun t => 2 * t)) ∧ df' ≠ df := by
  have h2 : ts0.any (fun t => t % 2 = 1) = true := by
    obtain ⟨t, ht, hto⟩ := hodd
    rw [List.any_eq_true]
    exact ⟨t, ht, by simpa using hto⟩
  unfold validateDataframe at hv
  rw [hts] at hv
  cases hneg : ts0.any (fun t => t < 0) with
  | true =>
    simp only [hneg, if_true] at hv
    exact absurd hv (by simp)
  | false =>
    simp only [hneg, Bool.false_eq_true, if_false, h2, if_true] at hv
    unfold checkDiffColumn at hv
    have hdf : setCol df TIME_PSEUDOCOLUMN (ts0.map (fun t => 2 * t)) = df' := by
      cases hdc : getCol (setCol df TIME_PSEUDOCOLUMN (ts0.map (fun t => 2 * t)))
          DIFF_PSEUDOCOLUMN with
      | none =>
        rw [hdc] at hv
        rw [Except.ok.injEq, Prod.mk.injEq] at hv
        exact hv.1
      | some ds =>
        rw [hdc] at hv
        cases hbad : ds.any (fun d => d ≠ 1 && d ≠ -1) with
        | true =>
          simp only [hbad, if_true] at hv
          exact absurd hv (by simp)
        | false =>
          simp only [hbad, Bool.false_eq_true, if_false, Except.ok.injEq,
            Prod.mk.injEq] at hv
          exact hv.1
    have hget : getCol df' TIME_PSEUDOCOLUMN =
        some (ts0.map (fun t => 2 * t)) := by
      rw [← hdf]
      exact getCol_setCol_self df TIME_PSEUDOCOLUMN _ ts0 hts
    refine ⟨hget, ?_⟩
    intro hc
    rw [hc, hts] at hget
    exact map_double_ne_of_odd ts0 hodd (Option.some.inj hget).symm

theorem sg_fill_adds_columns (df : PDF)
    (ht : hasCol df "_time" = false) (hw : hasCol df "_worker" = false)
    (hd : hasCol df "_diff" = false) :
    sgFillDefaults df = { df with cols := df.cols ++
      [("_time", List.replicate df.index.length 2),
       ("_worker", List.replicate df.index.length 0),
       ("_diff", List.replicate df.index.length 1)] } := by
  have h1 : hasCol
      { df with cols := df.cols ++ [("_time", List.replicate df.index.length 2)] }
      "_worker" = false := by
    rw [hasCol_eq_isSome_getCol,
      getCol_append_ne df "_time" _ "_worker" (by decide),
      ← hasCol_eq_isSome_getCol]
    exact hw
  have h2 : hasCol
      { df with cols := df.cols ++ [("_time", List.replicate df.index.length 2),
        ("_worker", List.replicate df.index.length 0)] } "_diff" = false := by
    rw [show ({ df with cols := df.cols ++
        [("_time", List.replicate df.index.length 2),
         ("_worker", List.replicate df.index.length 0)] } : PDF) =
      { ({ df with cols := df.cols ++
          [("_time", List.replicate df.index.length 2)] } : PDF) with
        cols := ({ df with cols := df.cols ++
          [("_time", List.replicate df.index.length 2)] } : PDF).cols ++
            [("_worker", List.replicate df.index.length 0)] } from by
      simp [List.append_assoc]]
    rw [hasCol_eq_isSome_getCol, getCol_append_ne _ "_worker" _ "_diff" (by decide),
      getCol_append_ne df "_time" _ "_diff" (by decide), ← hasCol_eq_isSome_getCol]
    exact hd
  unfold sgFillDefaults
  simp only [ht, Bool.false_eq_true, if_false, h1, h2, List.append_assoc,
    List.cons_append, List.nil_append]

/-- C10: `StreamGenerator.table_from_pandas` and `_validate_dataframe`
mutate the caller's dataframe: missing `_time`/`_worker`/`_diff` columns
are added to the argument itself, and an odd `__time__` value makes the
whole `__time__` column double in place — the input is not left
unchanged. -/
theorem ingestion_mutates_caller_dataframe :
    (∀ df : PDF,
      hasCol df "_time" = false → hasCol df "_worker" = false →
      hasCol df "_diff" = false →
      getCol (sgTableFromPandas df).1 "_time" =
        some (List.replicate df.index.length 2) ∧
      getCol (sgTableFromPandas df).1 "_worker" =
        some (List.replicate df.index.length 0) ∧
      getCol (sgTableFromPandas df).1 "_diff" =
        some (List.replicate df.index.length 1) ∧
      (sgTableFromPandas df).1 ≠ df) ∧
    (∀ (df df' : PDF) (ts0 : List Int) (w : List String),
      getCol df TIME_PSEUDOCOLUMN = some ts0 →
      (∃ t ∈ ts0, t % 2 = 1) →
      validateDataframe df = .ok (df', w) →
      getCol df' TIME_PSEUDOCOLUMN = some (ts0.map (fun t => 2 * t)) ∧
      df' ≠ df) := by
  constructor
  · intro df ht hw hd
    have hsf := sg_fill_adds_columns df ht hw hd
    have htime : getCol (sgTableFromPandas df).1 "_time" =
        some (List.replicate df.index.length 2) := by
      show getCol (sgFillDefaults df) "_time" = _
      rw [hsf]
      show ((df.cols ++ _).find? (fun c => c.1 = "_time")).map Prod.snd = _
      rw [List.find?_append, find?_none_of_hasCol_false df "_time" ht]
      rfl
    refine ⟨htime, ?_, ?_, ?_⟩
    · show getCol (sgFillDefaults df) "_worker" = _
      rw [hsf]
      show ((df.cols ++ _).find? (fun c => c.1 = "_worker")).map Prod.snd = _
      rw [List.find?_append, find?_none_of_hasCol_false df "_worker" hw]
      rfl
    · show getCol (sgFillDefaults df) "_diff" = _
      rw [hsf]
      show ((df.cols ++ _).find? (fun c => c.1 = "_diff")).map Prod.snd = _
      rw [List.find?_append, find?_none_of_hasCol_false df "_diff" hd]
      rfl
    · intro hc
      rw [hc] at htime
      rw [getCol_none_of_hasCol_false df "_time" ht] at htime
      cases htime
  · intro df df' ts0 w hts hodd hv
    exact validateDataframe_ok_odd_doubles df df' ts0 w hts hodd hv

/-- Witness for C10 at `c10df` (no pseudo-columns, so all three are added
in place) and `c10dfTime` (an odd `__time__` entry, doubled in place). -/
theorem ingestion_mutates_caller_dataframe_witness :
    (getCol (sgTableFromPandas c10df).1 "_time" =
        some (List.replicate c10df.index.length 2) ∧
      getCol (sgTableFromPandas c10df).1 "_worker" =
        some (List.replicate c10df.index.length 0) ∧
      getCol (sgTableFromPandas c10df).1 "_diff" =
        some (List.replicate c10df.index.length 1) ∧
      (sgTableFromPandas c10df).1 ≠ c10df) ∧
    (getCol (⟨[0], [("__time__", [2])]⟩ : PDF) TIME_PSEUDOCOLUMN =
        some (([1] : List Int).map (fun t => 2 * t)) ∧
      (⟨[0], [("__time__", [2])]⟩ : PDF) ≠ c10dfTime) :=
  ⟨ingestion_mutates_caller_dataframe.1 c10df (by decide) (by decide) (by decide),
    ingestion_mutates_caller_dataframe.2 c10dfTime ⟨[0], [("__time__", [2])]⟩
      [1] [doublingWarningMsg] rfl ⟨1, by decide, by decide⟩ rfl⟩

end PathwayDebug
